import Mathlib

/-!
Verification development for the chess-automation engine orchestration layer.

The JavaScript modules of the repository are shallowly embedded below:
pure functions become Lean functions, stateful methods become explicit
state-passing functions, JavaScript numbers that can be NaN are modelled by
the JSNum type, fallible methods return Except (a thrown error) paired with
the mutated state (mutations performed before a throw persist, as in JS),
and JavaScript truthiness of the relevant value shapes is modelled by
explicit helper functions.
-/

namespace ChessBot

/-- JavaScript number that may be NaN or an infinity (result of division). -/
inductive JSNum where
  | num (q : ℚ)
  | nan
  | inf
  | negInf
deriving DecidableEq, Repr

/-- JavaScript division semantics on rationals: 0/0 is NaN, x/0 is a signed
infinity for x nonzero, otherwise exact division. -/
def jsDiv (a b : ℚ) : JSNum :=
  if b = 0 then
    if a = 0 then JSNum.nan
    else if a > 0 then JSNum.inf
    else JSNum.negInf
  else JSNum.num (a / b)

/-- JavaScript truthiness-based defaulting `x || d` for an optional number
field: 0 and an absent value are falsy. -/
def jsOrN (x : Option Nat) (d : Nat) : Nat :=
  match x with
  | some n => if n = 0 then d else n
  | none => d

/-- JavaScript truthiness-based defaulting for an optional string: the empty
string and an absent value are falsy. -/
def jsOrStr (x : Option String) (d : String) : String :=
  match x with
  | some s => if s = "" then d else s
  | none => d

/-- JavaScript truthiness of an optional string field, keeping the value:
models `v || null`. -/
def jsStrOrNull (x : Option String) : Option String :=
  match x with
  | some s => if s = "" then none else some s
  | none => none

/-- JavaScript truthiness of an optional integer field (absent and 0 are
falsy; a NaN parse result is modelled as absent). -/
def jsTruthyInt (x : Option Int) : Bool :=
  match x with
  | some n => n != 0
  | none => false

/-- Accumulate a leading run of decimal digits (the loop of parseInt). -/
def digitsAux : List Char → Nat → Nat
  | [], acc => acc
  | c :: rest, acc =>
      if c.isDigit then digitsAux rest (acc * 10 + (c.toNat - 48)) else acc

/-- Model of JavaScript parseInt on an engine token: an optional sign then a
leading run of digits; no leading digit yields NaN, modelled as none. -/
def parseIntJS (s : String) : Option Int :=
  match s.toList with
  | '-' :: c :: rest =>
      if c.isDigit then some (-(digitsAux rest (c.toNat - 48) : Int)) else none
  | c :: rest =>
      if c.isDigit then some ((digitsAux rest (c.toNat - 48) : Int)) else none
  | [] => none

/-- Character-list prefix test, used to model String.prototype.includes. -/
def isPrefixChars : List Char → List Char → Bool
  | [], _ => true
  | _ :: _, [] => false
  | a :: as, b :: bs => a == b && isPrefixChars as bs

/-- Character-list substring test, used to model String.prototype.includes. -/
def containsSub (pat : List Char) : List Char → Bool
  | [] => isPrefixChars pat []
  | c :: rest => isPrefixChars pat (c :: rest) || containsSub pat rest

/-- Models `s.includes("info")` from the pv-token filters. -/
def includesInfo (s : String) : Bool :=
  containsSub "info".toList s.toList

/-- Models String.prototype.startsWith via character lists. -/
def jsStartsWith (s pre : String) : Bool :=
  isPrefixChars pre.toList s.toList

/-! ## UCI info line parsing

Embeds `parseInfoMessage` of StockfishAsmEngine (stockfishAsmEngine.js) and
of StockfishEngine (the stockfish.wasm implementation).  The JS methods loop
over space-split tokens with a switch whose cases advance the index; that
loop is embedded as structural recursion over the remaining token list. -/

/-- The accumulated `info` record built by parseInfoMessage.  A field whose
JS value would be NaN (parseInt of a malformed token) is modelled as none. -/
structure UciInfo where
  depth : Option Int := none
  multipv : Option Int := none
  score : Option ℚ := none
  mate : Option Int := none
  pv : Option (List String) := none
  nodes : Option Int := none
  nps : Option Int := none
  time : Option Int := none
deriving DecidableEq, Repr

/-- Mate-score sentinel of the ASM engine:
`mateIn > 0 ? 10000 - mateIn : -10000 - mateIn`. -/
def asmMateScore (mateIn : Int) : ℚ :=
  if mateIn > 0 then 10000 - (mateIn : ℚ) else -10000 - (mateIn : ℚ)

/-- Centipawn normalization: `parseInt(tok) / 100`. -/
def cpScore (cp : Int) : ℚ := (cp : ℚ) / 100

/-- The pv-token filter of the ASM engine:
`parts[j] && !parts[j].includes('info')`. -/
def asmPvKeep (s : String) : Bool :=
  s != "" && !(includesInfo s)

/-- parseInfoMessage of StockfishAsmEngine, over the space-split token list.
Each switch case consumes its fixed argument tokens; the pv case consumes
the rest of the line and ends the loop. -/
def parseTokensAsm : List String → UciInfo → UciInfo
  | [], info => info
  | tok :: rest, info =>
    if tok = "depth" then
      match rest with
      | v :: rest2 => parseTokensAsm rest2 { info with depth := parseIntJS v }
      | [] => { info with depth := none }
    else if tok = "multipv" then
      match rest with
      | v :: rest2 => parseTokensAsm rest2 { info with multipv := parseIntJS v }
      | [] => { info with multipv := none }
    else if tok = "score" then
      match rest with
      | "cp" :: v :: rest3 =>
          parseTokensAsm rest3 { info with score := (parseIntJS v).map cpScore }
      | "mate" :: v :: rest3 =>
          parseTokensAsm rest3
            (match parseIntJS v with
             | some n => { info with score := some (asmMateScore n), mate := some n }
             | none => { info with score := none, mate := none })
      | ["cp"] => { info with score := none }
      | ["mate"] => { info with score := none, mate := none }
      | _ :: rest2 => parseTokensAsm rest2 info
      | [] => info
    else if tok = "pv" then
      { info with pv := some (rest.filter asmPvKeep) }
    else if tok = "nodes" then
      match rest with
      | v :: rest2 => parseTokensAsm rest2 { info with nodes := parseIntJS v }
      | [] => { info with nodes := none }
    else if tok = "nps" then
      match rest with
      | v :: rest2 => parseTokensAsm rest2 { info with nps := parseIntJS v }
      | [] => { info with nps := none }
    else if tok = "time" then
      match rest with
      | v :: rest2 => parseTokensAsm rest2 { info with time := parseIntJS v }
      | [] => { info with time := none }
    else
      parseTokensAsm rest info

/-- parseInfoMessage of StockfishAsmEngine on a whole message string. -/
def parseInfoMessageAsm (message : String) : UciInfo :=
  parseTokensAsm (message.splitOn " ") {}

/-- Mate-score sentinel of the WASM engine (stockfish.wasm implementation):
`parts[++i].startsWith('-') ? -10000 : 10000` — a constant, by token sign. -/
def wasmMateScore (tok : String) : ℚ :=
  if jsStartsWith tok "-" then -10000 else 10000

/-- The pv-token filter of the WASM engine:
`parts[j] && !parts[j].startsWith('info')`. -/
def wasmPvKeep (s : String) : Bool :=
  s != "" && !(jsStartsWith s "info")

/-- parseInfoMessage of StockfishEngine (stockfish.wasm), over the token
list.  Returns none when the JS code would throw a TypeError (reading
startsWith of undefined, when "mate" ends the line). -/
def parseTokensWasm : List String → UciInfo → Option UciInfo
  | [], info => some info
  | tok :: rest, info =>
    if tok = "depth" then
      match rest with
      | v :: rest2 => parseTokensWasm rest2 { info with depth := parseIntJS v }
      | [] => some { info with depth := none }
    else if tok = "multipv" then
      match rest with
      | v :: rest2 => parseTokensWasm rest2 { info with multipv := parseIntJS v }
      | [] => some { info with multipv := none }
    else if tok = "score" then
      match rest with
      | "cp" :: v :: rest3 =>
          parseTokensWasm rest3 { info with score := (parseIntJS v).map cpScore }
      | "mate" :: v :: rest3 =>
          parseTokensWasm rest3
            { info with score := some (wasmMateScore v), mate := parseIntJS v }
      | ["cp"] => some { info with score := none }
      | ["mate"] => none
      | _ :: rest2 => parseTokensWasm rest2 info
      | [] => some info
    else if tok = "pv" then
      some { info with pv := some (rest.filter wasmPvKeep) }
    else
      parseTokensWasm rest info

/-- parseInfoMessage of StockfishEngine on a whole message string. -/
def parseInfoMessageWasm (message : String) : Option UciInfo :=
  parseTokensWasm (message.splitOn " ") {}

/-! ## Search state machine of the engine adapters

getBestMove of both adapters stores a fresh promise deferred in
`this.currentSearch`, sends the go command, and arms a setTimeout.  The
bestmove handler resolves `this.currentSearch` (if any); the timer
callback's behaviour differs between the two adapters.  Promises settle at
most once: a later resolve or reject of an already settled promise is a
no-op.  Promise deferreds are identified by allocation order (`nextId`). -/

/-- Final status of a search promise. -/
inductive Settle where
  | resolved (move : Option String) (ponder : Option String)
  | rejected (msg : String)
deriving DecidableEq, Repr

/-- Lookup in an association list of settled promises. -/
def settleLookup (l : List (Nat × Settle)) (id : Nat) : Option Settle :=
  match l.find? (fun p => p.1 == id) with
  | some p => some p.2
  | none => none

/-- Settle promise `id`, a no-op when it is already settled. -/
def settleOnce (l : List (Nat × Settle)) (id : Nat) (s : Settle) :
    List (Nat × Settle) :=
  match settleLookup l id with
  | some _ => l
  | none => l ++ [(id, s)]

/-- Search options `{ time, depth }`; absent fields are none. -/
structure SearchOpts where
  time : Option Nat := none
  depth : Option Nat := none
deriving DecidableEq, Repr

/-- Engine config fields read by getBestMove. -/
structure SearchCfg where
  timeLimit : Option Nat := none
  depth : Option Nat := none
deriving DecidableEq, Repr

/-- Adapter state shared by the promise/timer model of both engines.
`timers` records armed, not yet fired, timeout callbacks as
(absolute fire time, promise id of the search that armed them). -/
structure AdapterSt where
  now : Nat
  currentSearch : Option Nat := none
  nextId : Nat := 0
  settled : List (Nat × Settle) := []
  timers : List (Nat × Nat) := []
  sent : List String := []
  evaluation : Option UciInfo := none
deriving DecidableEq, Repr

/-- timeLimit computed by getBestMove:
`options.time || this.config.timeLimit || 2000`. -/
def searchTimeLimit (cfg : SearchCfg) (opts : SearchOpts) : Nat :=
  jsOrN opts.time (jsOrN cfg.timeLimit 2000)

/-- The go command built by StockfishAsmEngine.getBestMove. -/
def asmGoCommand (cfg : SearchCfg) (opts : SearchOpts) : String :=
  let depth := jsOrN opts.depth (jsOrN cfg.depth 15)
  let timeLimit := searchTimeLimit cfg opts
  if jsTruthyInt (opts.time.map Int.ofNat) then s!"go movetime {timeLimit}"
  else s!"go depth {depth}"

/-- StockfishAsmEngine.getBestMove: resets `this.evaluation`, installs a
fresh deferred in `this.currentSearch` (without checking for a pending
one), sends the go command, and arms a timer at
`(timeLimit || 10000) + 5000`.  Returns the new promise id. -/
def asmGetBestMove (cfg : SearchCfg) (opts : SearchOpts) (st : AdapterSt) :
    Nat × AdapterSt :=
  let timeLimit := searchTimeLimit cfg opts
  let fireAt := st.now + (if timeLimit = 0 then 10000 else timeLimit) + 5000
  (st.nextId,
   { st with
      evaluation := none
      currentSearch := some st.nextId
      nextId := st.nextId + 1
      sent := st.sent ++ [asmGoCommand cfg opts]
      timers := st.timers ++ [(fireAt, st.nextId)] })

/-- The bestmove branch of handleEngineMessage (both engines): resolves the
pending deferred, if any, with `parts[1]` and `parts[3]`, and clears
`this.currentSearch`. -/
def handleBestmove (parts : List String) (st : AdapterSt) : AdapterSt :=
  match st.currentSearch with
  | some id =>
      { st with
         settled := settleOnce st.settled id
           (Settle.resolved (parts.get? 1) (parts.get? 3))
         currentSearch := none }
  | none => st

/-- The ASM timeout callback armed for search `armedId`: if any search is
pending it sends stop, rejects the arming search's promise, and clears
`this.currentSearch`.  The state's clock moves to the timer's fire time. -/
def asmFireTimer (fireAt armedId : Nat) (st : AdapterSt) : AdapterSt :=
  let st :=
    { st with
       now := fireAt
       timers := st.timers.filter (fun p => !(p.1 == fireAt && p.2 == armedId)) }
  match st.currentSearch with
  | some _ =>
      { st with
         sent := st.sent ++ ["stop"]
         settled := settleOnce st.settled armedId (Settle.rejected "Search timeout")
         currentSearch := none }
  | none => st

/-- The go command built by StockfishEngine.getBestMove (movetime when a
time budget is given, depth otherwise). -/
def wasmGoCommand (cfg : SearchCfg) (opts : SearchOpts) : String :=
  let depth := jsOrN opts.depth (jsOrN cfg.depth 15)
  let timeLimit := searchTimeLimit cfg opts
  if jsTruthyInt (opts.time.map Int.ofNat) then s!"go movetime {timeLimit}"
  else s!"go depth {depth}"

/-- StockfishEngine.getBestMove (stockfish.wasm): installs a fresh deferred
in `this.currentSearch` (without checking for a pending one), sends the go
command, and arms a timer at `timeLimit + 5000`.  It does not reset
`this.evaluation`.  Returns the new promise id. -/
def wasmGetBestMove (cfg : SearchCfg) (opts : SearchOpts) (st : AdapterSt) :
    Nat × AdapterSt :=
  let timeLimit := searchTimeLimit cfg opts
  (st.nextId,
   { st with
      currentSearch := some st.nextId
      nextId := st.nextId + 1
      sent := st.sent ++ [wasmGoCommand cfg opts]
      timers := st.timers ++ [(st.now + timeLimit + 5000, st.nextId)] })

/-- The WASM timeout callback: if any search is pending it rejects that
(current) search's promise and clears `this.currentSearch`.  It sends no
stop command. -/
def wasmFireTimer (fireAt armedId : Nat) (st : AdapterSt) : AdapterSt :=
  let st :=
    { st with
       now := fireAt
       timers := st.timers.filter (fun p => !(p.1 == fireAt && p.2 == armedId)) }
  match st.currentSearch with
  | some cur =>
      { st with
         settled := settleOnce st.settled cur (Settle.rejected "Search timeout")
         currentSearch := none }
  | none => st

/-! ## Multi-variation collection (StockfishAsmEngine.getCandidateMoves)

getCandidateMoves temporarily monkey-patches parseInfoMessage: after the
original parse runs, if `this.evaluation` is set and has truthy `pv` and
`multipv` fields, a record is stored in the `pvLines` map under that
multipv index.  The original parse only updates `this.evaluation` when the
parsed line has `multipv === 1` or a falsy multipv.  After the search,
indices 1..count present in `pvLines` are emitted in ascending order. -/

/-- The record stored per variation index by the patched parse callback. -/
structure CandidateRec where
  move : Option String
  evaluation : Option ℚ
  pv : Option (List String)
  depth : Option Int
  nodes : Option Int
deriving DecidableEq, Repr

/-- Map.set on an association list: replaces in place or appends. -/
def alistSet (l : List (Int × CandidateRec)) (k : Int) (v : CandidateRec) :
    List (Int × CandidateRec) :=
  match l with
  | [] => [(k, v)]
  | (k2, v2) :: rest =>
      if k2 == k then (k2, v) :: rest else (k2, v2) :: alistSet rest k v

/-- Map.get on an association list. -/
def alistGet (l : List (Int × CandidateRec)) (k : Int) : Option CandidateRec :=
  match l.find? (fun p => p.1 == k) with
  | some p => some p.2
  | none => none

/-- The original parseInfoMessage's update of `this.evaluation`:
`if (info.multipv === 1 || !info.multipv) this.evaluation = info`. -/
def asmApplyInfo (evalSt : Option UciInfo) (tokens : List String) :
    Option UciInfo :=
  let info := parseTokensAsm tokens {}
  if info.multipv == some 1 || !(jsTruthyInt info.multipv) then some info
  else evalSt

/-- State of the patched collection: the adapter's `this.evaluation` plus
the local `pvLines` map. -/
structure CollectSt where
  evaluation : Option UciInfo := none
  pvLines : List (Int × CandidateRec) := []
deriving DecidableEq, Repr

/-- The pvLines update of the patched parseInfoMessage:
`if (this.evaluation && this.evaluation.pv && this.evaluation.multipv)`
store a record under `this.evaluation.multipv` (a truthy object, a set pv
field — even an empty array is truthy — and a truthy multipv). -/
def asmCollectPv (pvLines : List (Int × CandidateRec)) :
    Option UciInfo → List (Int × CandidateRec)
  | some info =>
      match info.multipv, info.pv with
      | some k, some pvl =>
          if k != 0 then
            alistSet pvLines k
              { move := pvl.head?
                evaluation := info.score
                pv := some pvl
                depth := info.depth
                nodes := info.nodes }
          else pvLines
      | _, _ => pvLines
  | none => pvLines

/-- One patched parseInfoMessage call: the original parse updates
`this.evaluation`, then the patch stores a pvLines record from it. -/
def asmCollectStep (st : CollectSt) (tokens : List String) : CollectSt :=
  let ev := asmApplyInfo st.evaluation tokens
  { evaluation := ev, pvLines := asmCollectPv st.pvLines ev }

/-- StockfishAsmEngine.getCandidateMoves over the info messages (token
lists) the engine emits during the one search: collect pvLines, then emit
the records of indices 1..count that are present, ascending. -/
def asmGetCandidateMoves (count : Nat) (infoMsgs : List (List String)) :
    List CandidateRec :=
  let final := infoMsgs.foldl asmCollectStep {}
  (List.range count).filterMap
    (fun (j : Nat) => alistGet final.pvLines (Int.ofNat j + 1))

/-! ## Engine Manager (engineManager.js) -/

/-- The BaseEngine-level state of the adapter held by the manager. -/
structure EngineCore where
  isReady : Bool
  currentPosition : Option String
  evaluation : Option UciInfo
deriving DecidableEq, Repr

/-- One entry of the manager's analysisHistory. -/
structure AnalysisRec where
  fen : String
  bestMove : Option String
  evaluation : ℚ
  depth : Option Int
  pv : List (Option String)
  engineType : String
  analysisTime : Nat
deriving DecidableEq, Repr

/-- EngineManager state: the single current adapter (none before init and
after quit), the engine type tag, and the rolling analysis history. -/
structure EngineMgrSt where
  currentEngine : Option EngineCore
  engineType : String
  analysisHistory : List AnalysisRec
deriving DecidableEq, Repr

/-- EngineManager constructor: no adapter yet, empty history, engine type
`config.engine || ENGINE_TYPES.STOCKFISH_WASM`. -/
def mkEngineManager (cfgEngine : Option String) : EngineMgrSt :=
  { currentEngine := none
    engineType := jsOrStr cfgEngine "stockfish-wasm"
    analysisHistory := [] }

/-- The readiness test `this.currentEngine && this.currentEngine.getIsReady()`. -/
def emIsReady (st : EngineMgrSt) : Bool :=
  match st.currentEngine with
  | some e => e.isReady
  | none => false

/-- The status record returned by EngineManager.getStatus. -/
structure EMStatus where
  engineType : String
  isReady : Bool
  currentPosition : Option String
  lastEvaluation : Option UciInfo
  historySize : Nat
deriving DecidableEq, Repr

/-- EngineManager.getStatus: optional chaining into the adapter with
JavaScript `|| false` / `|| null` defaulting. -/
def emGetStatus (st : EngineMgrSt) : EMStatus :=
  { engineType := st.engineType
    isReady :=
      (match st.currentEngine with
       | some e => e.isReady
       | none => false)
    currentPosition :=
      (match st.currentEngine with
       | some e => jsStrOrNull e.currentPosition
       | none => none)
    lastEvaluation :=
      (match st.currentEngine with
       | some e => e.evaluation
       | none => none)
    historySize := st.analysisHistory.length }

/-- EngineManager.quit: quits the adapter (dropping it) and clears the
reference; the history is not touched. -/
def emQuit (st : EngineMgrSt) : EngineMgrSt :=
  { st with currentEngine := none }

/-- One ranked candidate as returned by EngineManager.getCandidateMoves. -/
structure RankedMove where
  rank : Nat
  move : Option String
  evaluation : Option ℚ
  depth : Option Int
  pv : List (Option String)
deriving DecidableEq, Repr

/-- The re-numbering map of EngineManager.getCandidateMoves:
`(candidate, index) => { rank: index + 1, ..., pv: candidate.pv || [candidate.move] }`. -/
def emRankFrom (i : Nat) : List CandidateRec → List RankedMove
  | [] => []
  | c :: cs =>
      { rank := i + 1
        move := c.move
        evaluation := c.evaluation
        depth := c.depth
        pv :=
          (match c.pv with
           | some l => l.map some
           | none => [c.move]) } :: emRankFrom (i + 1) cs

/-- EngineManager.getCandidateMoves over the ASM adapter: readiness guard,
then delegate and re-number 1..k.  The adapter's output is determined by
the info messages the engine emits during the search. -/
def emGetCandidateMoves (st : EngineMgrSt) (count : Nat)
    (infoMsgs : List (List String)) : Except String (List RankedMove) :=
  if emIsReady st then
    Except.ok (emRankFrom 0 (asmGetCandidateMoves count infoMsgs))
  else Except.error "Engine not ready"

/-! ## Engine Pool Manager (enginePoolManager.js)

Fallible methods return the thrown error (if any) paired with the state:
mutations performed before a throw persist, exactly as in the JS object.
Math.random() outcomes are passed in as an explicit rational r ∈ [0,1);
whether a given engine's EngineManager.init() would succeed in this
session is passed in as the oracle initOk. -/

/-- The enabled flag of ENGINES_CONFIG (engines.config.js); none when the
identifier has no configuration entry. -/
def enginesConfigEnabled (id : String) : Option Bool :=
  if id = "stockfish-wasm" ∨ id = "stockfish-native" ∨ id = "lc0-default" ∨
     id = "maia-1100" ∨ id = "maia-1500" ∨ id = "maia-1900" then some true
  else if id = "lc0-custom" then some false
  else none

/-- EnginePoolManager configuration fields used by selection/switching. -/
structure PoolConfig where
  selection : String := "random"
  switchEvery : Int := 1
  weights : Option (List ℚ) := none
deriving Repr

/-- EnginePoolManager mutable state. -/
structure PoolSt where
  poolEngines : List String
  poolIndex : Nat := 0
  moveCount : Nat := 0
  enginesCache : List String := []
  currentEngineId : Option String := none
  currentEngine : Option String := none
deriving DecidableEq, Repr

/-- EnginePoolManager.shouldSwitchEngine. -/
def shouldSwitchEngine (cfg : PoolConfig) (st : PoolSt) : Bool :=
  if cfg.selection = "single" then false
  else if cfg.switchEvery ≤ 0 then false
  else decide (0 < st.moveCount) && ((st.moveCount : Int) % cfg.switchEvery == 0)

/-- EnginePoolManager.selectRandomEngine:
`this.poolEngines[Math.floor(Math.random() * this.poolEngines.length)]`. -/
def selectRandomEngine (st : PoolSt) (r : ℚ) : Option String :=
  st.poolEngines.get? (Int.toNat ⌊r * (st.poolEngines.length : ℚ)⌋)

/-- EnginePoolManager.selectSequentialEngine: returns the identifier at
`poolIndex` and advances the index modulo the pool length. -/
def selectSequentialEngine (st : PoolSt) : Option String × PoolSt :=
  (st.poolEngines.get? st.poolIndex,
   { st with poolIndex := (st.poolIndex + 1) % st.poolEngines.length })

/-- The cumulative-weight loop inside selectWeightedEngine: subtract each
weight from x and return the engine at the first index where the running
value drops to 0 or below. -/
def weightedLoop : List String → List ℚ → ℚ → Option String
  | e :: pool2, w :: ws2, x =>
      if x - w ≤ 0 then some e else weightedLoop pool2 ws2 (x - w)
  | _, _, _ => none

/-- EnginePoolManager.selectWeightedEngine, falling back to random when the
weights are absent or length-mismatched, and to the last pool entry when
the loop runs out. -/
def selectWeightedEngine (cfg : PoolConfig) (st : PoolSt) (r : ℚ) :
    Option String :=
  match cfg.weights with
  | none => selectRandomEngine st r
  | some ws =>
      if ws.length != st.poolEngines.length then selectRandomEngine st r
      else
        let totalWeight := ws.foldl (· + ·) 0
        match weightedLoop st.poolEngines ws (r * totalWeight) with
        | some e => some e
        | none => st.poolEngines.getLast?

/-- EnginePoolManager.initializeEngine: unknown identifier throws; a
disabled engine only warns (and is not cached); a failing init removes the
identifier from poolEngines and re-throws; a successful init caches the
manager. -/
def initializeEngine (initOk : String → Bool) (id : String) (st : PoolSt) :
    Except String Unit × PoolSt :=
  match enginesConfigEnabled id with
  | none => (Except.error (s!"Engine configuration not found: {id}"), st)
  | some false => (Except.ok (), st)
  | some true =>
      if initOk id then
        (Except.ok (), { st with enginesCache := st.enginesCache ++ [id] })
      else
        (Except.error (s!"Failed to initialize engine {id}"),
         { st with poolEngines := st.poolEngines.filter (fun e => e ≠ id) })

/-- EnginePoolManager.selectAndInitEngine: pick an identifier per the
strategy, initialize it when not cached (propagating a throw), then set
currentEngineId and currentEngine (the cache lookup). -/
def selectAndInitEngine (cfg : PoolConfig) (initOk : String → Bool) (r : ℚ)
    (st : PoolSt) : Except String Unit × PoolSt :=
  let pick : Option String × PoolSt :=
    if cfg.selection = "random" then (selectRandomEngine st r, st)
    else if cfg.selection = "sequential" then selectSequentialEngine st
    else if cfg.selection = "weighted" then (selectWeightedEngine cfg st r, st)
    else (st.poolEngines.head?, st)
  match pick.1 with
  | none => (Except.error "Engine configuration not found: undefined", pick.2)
  | some id =>
      let st1 := pick.2
      let step : Except String Unit × PoolSt :=
        if st1.enginesCache.contains id then (Except.ok (), st1)
        else initializeEngine initOk id st1
      match step.1 with
      | Except.error e => (Except.error e, step.2)
      | Except.ok _ =>
          (Except.ok (),
           { step.2 with
              currentEngineId := some id
              currentEngine :=
                if step.2.enginesCache.contains id then some id else none })

/-- EnginePoolManager.analyzePosition: require a current engine, switch
first when shouldSwitchEngine says so (propagating a throw), increment
moveCount, run the analysis on the now-current engine and annotate the
result with the current engine identifier (returned here). -/
def poolAnalyzePosition (cfg : PoolConfig) (initOk : String → Bool) (r : ℚ)
    (st : PoolSt) : Except String (Option String) × PoolSt :=
  match st.currentEngine with
  | none => (Except.error "No engine selected", st)
  | some _ =>
      let step : Except String Unit × PoolSt :=
        if shouldSwitchEngine cfg st then selectAndInitEngine cfg initOk r st
        else (Except.ok (), st)
      match step.1 with
      | Except.error e => (Except.error e, step.2)
      | Except.ok _ =>
          let st2 := { step.2 with moveCount := step.2.moveCount + 1 }
          (Except.ok st2.currentEngineId, st2)

/-- One sequential-selection step's chosen identifier. -/
def seqSel (st : PoolSt) : Option String := (selectSequentialEngine st).1

/-- One sequential-selection step's state evolution. -/
def seqStep (st : PoolSt) : PoolSt := (selectSequentialEngine st).2

/-- The list of identifiers chosen by n consecutive sequential selections. -/
def seqRun : Nat → PoolSt → List (Option String)
  | 0, _ => []
  | n + 1, st => seqSel st :: seqRun n (seqStep st)

/-! ## Dual Analysis consolidation (dualAnalysis.js)

`this.results` holds one entry per engine whose unit of work succeeded, in
insertion order; consolidateResults tallies best moves over it. -/

/-- The fields of a per-engine analysis result that consolidateResults
reads.  bestMove is none when the field would be absent. -/
structure DAResult where
  bestMove : Option String
deriving DecidableEq, Repr

/-- One step of the frequency tally `moves[m] = (moves[m] || 0) + 1`,
keeping JS object insertion order (first-seen order of move strings). -/
def bumpMove : List (String × Nat) → String → List (String × Nat)
  | [], m => [(m, 1)]
  | (k, c) :: rest, m =>
      if k == m then (k, c + 1) :: rest else (k, c) :: bumpMove rest m

/-- The tally loop over the results, skipping entries whose bestMove is
falsy (`if (result && result.bestMove)`). -/
def tallyAux : List (String × Nat) → List DAResult → List (String × Nat)
  | t, [] => t
  | t, r :: rs =>
      tallyAux
        (match jsStrOrNull r.bestMove with
         | some m => bumpMove t m
         | none => t) rs

/-- The complete best-move frequency map, in first-seen order. -/
def tallyMoves (rs : List DAResult) : List (String × Nat) :=
  tallyAux [] rs

/-- The most-common-move scan: starting from maxCount 0 and no consensus,
update both whenever a strictly larger count is seen. -/
def consensusScan : Nat × Option String → List (String × Nat) →
    Nat × Option String
  | acc, [] => acc
  | acc, (m, c) :: rest =>
      consensusScan (if c > acc.1 then (c, some m) else acc) rest

/-- The output of DualAnalysis.consolidateResults that the claims inspect
(numeric fields as JavaScript numbers). -/
structure Consolidated where
  consensus : Option String
  divergence : JSNum
  totalEngines : Nat
  uniqueMoves : Nat
  consensusStrength : JSNum
deriving DecidableEq, Repr

/-- DualAnalysis.consolidateResults over the successful results in
insertion order. -/
def consolidateResults (rs : List DAResult) : Consolidated :=
  let moves := tallyMoves rs
  let mc := consensusScan (0, none) moves
  let uniq := moves.length
  let n := rs.length
  { consensus := mc.2
    divergence :=
      if uniq > 1 then jsDiv ((uniq : ℚ) - 1) (n : ℚ) else JSNum.num 0
    totalEngines := n
    uniqueMoves := uniq
    consensusStrength := jsDiv ((mc.1 : ℚ)) (n : ℚ) }

/-! ## Specification-side definitions for the consensus claim (C5)

These formalize the claim's own words — highest frequency, ties broken by
first-seen order — to be compared with the code's consolidateResults. -/

/-- The distinct elements of a list in first-seen order (auxiliary). -/
def fsAux : List String → List String → List String
  | acc, [] => acc
  | acc, m :: ms => fsAux (if m ∈ acc then acc else acc ++ [m]) ms

/-- The distinct elements of a list in first-seen order. -/
def firstSeen (l : List String) : List String := fsAux [] l

/-- The highest frequency among the moves of the list. -/
def specMaxFreq (ms : List String) : Nat :=
  ((firstSeen ms).map (fun m => ms.count m)).foldr max 0

/-- Modelled from the spec: the consensus move as the claim words it — the
move with the highest frequency, ties broken by first-seen order. -/
def consensusSpec (ms : List String) : Option String :=
  (firstSeen ms).find? (fun m => ms.count m == specMaxFreq ms)

/-- First-match count lookup in a frequency association list (proof-layer
view of the tally). -/
def tcount : List (String × Nat) → String → Nat
  | [], _ => 0
  | (k, c) :: rest, m => if k = m then c else tcount rest m

/-- The largest count appearing in a frequency association list. -/
def tmax (t : List (String × Nat)) : Nat :=
  (t.map Prod.snd).foldr max 0

/-! ## Helper lemmas -/

theorem settleLookup_append_ne (l : List (Nat × Settle)) (k j : Nat) (s : Settle)
    (h : k ≠ j) : settleLookup (l ++ [(j, s)]) k = settleLookup l k := by
  unfold settleLookup
  rw [List.find?_append]
  have hj : ((j, s).1 == k) = false := by
    simp only [beq_eq_false_iff_ne, ne_eq]
    exact fun e => h e.symm
  cases hfind : l.find? (fun p => p.1 == k) with
  | some p => simp [hfind]
  | none => simp [hfind, List.find?, hj]

theorem settleLookup_append_self (l : List (Nat × Settle)) (j : Nat) (s : Settle)
    (h : settleLookup l j = none) : settleLookup (l ++ [(j, s)]) j = some s := by
  unfold settleLookup at h ⊢
  rw [List.find?_append]
  cases hfind : l.find? (fun p => p.1 == j) with
  | some p => rw [hfind] at h; exact absurd h (by simp)
  | none => simp [hfind, List.find?]

theorem settleOnce_of_unsettled (l : List (Nat × Settle)) (j : Nat) (s : Settle)
    (h : settleLookup l j = none) : settleOnce l j s = l ++ [(j, s)] := by
  unfold settleOnce
  rw [h]

/-- C10: EngineManager.quit clears only the engine reference: the analysis
history is left unchanged by quit, and getStatus is callable both before
init and after quit without throwing, then reporting isReady false,
currentPosition null, lastEvaluation null, with historySize equal to its
value before quit. -/
theorem c10_quit_frame (st : EngineMgrSt) (cfgEngine : Option String) :
    (emQuit st).analysisHistory = st.analysisHistory ∧
    (emQuit st).engineType = st.engineType ∧
    emGetStatus (emQuit st) =
      { engineType := st.engineType
        isReady := false
        currentPosition := none
        lastEvaluation := none
        historySize := st.analysisHistory.length } ∧
    emGetStatus (mkEngineManager cfgEngine) =
      { engineType := jsOrStr cfgEngine "stockfish-wasm"
        isReady := false
        currentPosition := none
        lastEvaluation := none
        historySize := 0 } :=
  ⟨rfl, rfl, rfl, rfl⟩

/-- C3 counterexample: with zero successful engine results,
consolidateResults does return consensus none and divergence 0, but the
consensus strength field is NaN — the result of the division
`maxCount / this.results.size` = 0/0 — hence not a well-defined number as
the claim states. -/
theorem c3_counterexample :
    (consolidateResults []).consensus = none ∧
    (consolidateResults []).divergence = JSNum.num 0 ∧
    (consolidateResults []).consensusStrength = JSNum.nan ∧
    ∀ q : ℚ, (consolidateResults []).consensusStrength ≠ JSNum.num q := by
  refine ⟨rfl, rfl, rfl, ?_⟩
  intro q h
  have h2 : JSNum.nan = JSNum.num q := h
  exact JSNum.noConfusion h2

/-- C3 (amended): with zero successful engine results consolidateResults
never throws (it is a total function) and returns consensus none,
divergence 0 and zero counts, but consensusStrength is NaN (0/0) rather
than a well-defined number. -/
theorem c3_zero_success_consolidation :
    consolidateResults [] =
      { consensus := none
        divergence := JSNum.num 0
        totalEngines := 0
        uniqueMoves := 0
        consensusStrength := JSNum.nan } := rfl

/-- C4 counterexample: the ASM parser maps "score mate 1" to the sentinel
9999, whose magnitude is strictly below the claimed minimum 10000; and the
WASM parser maps mate-in-1 and mate-in-5 to the same constant 10000, so
the sentinel magnitude does not strictly decrease with mate distance. -/
theorem c4_counterexample :
    (parseTokensAsm ["score", "mate", "1"] {}).score = some 9999 ∧
    |(9999 : ℚ)| < 10000 ∧
    (parseTokensWasm ["score", "mate", "1"] {}).map UciInfo.score =
      some (some 10000) ∧
    (parseTokensWasm ["score", "mate", "5"] {}).map UciInfo.score =
      some (some 10000) := by
  refine ⟨?_, by norm_num, rfl, rfl⟩
  have h1 : parseTokensAsm ["score", "mate", "1"] {} =
      { score := some (asmMateScore 1), mate := some 1 } := rfl
  rw [h1]
  norm_num [asmMateScore]

theorem asmMateScore_of_pos {n : Int} (h : n > 0) :
    asmMateScore n = 10000 - (n : ℚ) := by
  rw [asmMateScore, if_pos h]

theorem asmMateScore_of_nonpos {n : Int} (h : ¬ n > 0) :
    asmMateScore n = -10000 - (n : ℚ) := by
  rw [asmMateScore, if_neg h]

/-- C4 (amended): centipawn scores divide by 100 into pawn units.  The ASM
parser maps mate-in-n to the sentinel sign(n)·(10000 − |n|): the sign
matches the mate sign (for mate distances below 10000) and the magnitude
strictly decreases as the mate distance grows, but it is strictly below
10000 rather than at least 10000, and it compares strictly better (worse,
for the losing side) than centipawn evaluations only up to the sentinel —
in particular any evaluation within ±999 pawns, for distances up to 9000.
The WASM parser instead maps every mate score to the constant ±10000
chosen by the token's sign, independent of the mate distance. -/
theorem c4_score_normalization (cpTok mateTok : String) (cp n : Int)
    (hcp : parseIntJS cpTok = some cp) (hm : parseIntJS mateTok = some n) :
    (parseTokensAsm ["score", "cp", cpTok] {}).score = some (cpScore cp) ∧
    cpScore cp = (cp : ℚ) / 100 ∧
    (parseTokensAsm ["score", "mate", mateTok] {}).score = some (asmMateScore n) ∧
    (parseTokensAsm ["score", "mate", mateTok] {}).mate = some n ∧
    (0 < n → asmMateScore n = 10000 - (n : ℚ)) ∧
    (0 < n → n < 10000 → 0 < asmMateScore n) ∧
    (n < 0 → asmMateScore n = -(10000 - ((-n : Int) : ℚ))) ∧
    (-10000 < n → n < 0 → asmMateScore n < 0) ∧
    (∀ n2 : Int, 0 < n → n < n2 → asmMateScore n2 < asmMateScore n) ∧
    (∀ n2 : Int, n2 < n → n < 0 → asmMateScore n < asmMateScore n2) ∧
    (0 < n → n ≤ 9000 → ∀ cp2 : Int, |cp2| ≤ 99900 →
      cpScore cp2 < asmMateScore n) ∧
    (n < 0 → -9000 ≤ n → ∀ cp2 : Int, |cp2| ≤ 99900 →
      asmMateScore n < cpScore cp2) ∧
    (parseTokensWasm ["score", "mate", mateTok] {}).map UciInfo.score =
      some (some (wasmMateScore mateTok)) ∧
    (parseTokensWasm ["score", "mate", mateTok] {}).map UciInfo.mate =
      some (some n) ∧
    (jsStartsWith mateTok "-" = true → wasmMateScore mateTok = -10000) ∧
    (jsStartsWith mateTok "-" = false → wasmMateScore mateTok = 10000) := by
  have hasm : parseTokensAsm ["score", "mate", mateTok] {} =
      { score := some (asmMateScore n), mate := some n } := by
    have hstep : parseTokensAsm ["score", "mate", mateTok] {} =
        (match parseIntJS mateTok with
         | some k => ({ score := some (asmMateScore k), mate := some k } : UciInfo)
         | none => { score := none, mate := none }) := rfl
    rw [hstep, hm]
  have hcpeq : (parseTokensAsm ["score", "cp", cpTok] {}).score =
      (parseIntJS cpTok).map cpScore := rfl
  refine ⟨?_, rfl, by rw [hasm], by rw [hasm], ?_, ?_, ?_, ?_, ?_, ?_, ?_, ?_,
    ?_, ?_, ?_, ?_⟩
  · rw [hcpeq, hcp]; rfl
  · intro h; exact asmMateScore_of_pos h
  · intro h h2
    rw [asmMateScore_of_pos h]
    have : (n : ℚ) < 10000 := by exact_mod_cast h2
    linarith
  · intro h
    rw [asmMateScore_of_nonpos (by omega)]
    push_cast
    ring
  · intro hlow h
    rw [asmMateScore_of_nonpos (by omega)]
    have : (-10000 : ℚ) < (n : ℚ) := by exact_mod_cast hlow
    linarith
  · intro n2 h1 h2
    rw [asmMateScore_of_pos (by omega : n2 > 0), asmMateScore_of_pos h1]
    have : (n : ℚ) < (n2 : ℚ) := by exact_mod_cast h2
    linarith
  · intro n2 h1 h2
    rw [asmMateScore_of_nonpos (by omega : ¬ n > 0),
        asmMateScore_of_nonpos (by omega : ¬ n2 > 0)]
    have : (n2 : ℚ) < (n : ℚ) := by exact_mod_cast h1
    linarith
  · intro h1 h2 cp2 hcp2
    rw [asmMateScore_of_pos h1]
    have ha : (cp2 : ℚ) ≤ 99900 := by
      exact_mod_cast le_trans (le_abs_self _) hcp2
    have hn : (n : ℚ) ≤ 9000 := by exact_mod_cast h2
    rw [cpScore]
    linarith
  · intro h1 h2 cp2 hcp2
    rw [asmMateScore_of_nonpos (by omega)]
    have ha : (-99900 : ℚ) ≤ (cp2 : ℚ) := by
      exact_mod_cast neg_le_of_abs_le hcp2
    have hn : (-9000 : ℚ) ≤ (n : ℚ) := by exact_mod_cast h2
    rw [cpScore]
    linarith
  · rfl
  · have hstep : (parseTokensWasm ["score", "mate", mateTok] {}).map UciInfo.mate =
        some (parseIntJS mateTok) := rfl
    rw [hstep, hm]
  · intro h; simp [wasmMateScore, h]
  · intro h; simp [wasmMateScore, h]

/-- C4 witness: the amended normalization at concrete tokens. -/
theorem c4_score_normalization_witness :
    parseIntJS "250" = some 250 ∧ parseIntJS "1" = some 1 ∧
    (parseTokensAsm ["score", "cp", "250"] {}).score = some (cpScore 250) ∧
    (parseTokensAsm ["score", "mate", "1"] {}).score = some (asmMateScore 1) ∧
    asmMateScore 5 < asmMateScore 1 ∧
    (parseTokensWasm ["score", "mate", "1"] {}).map UciInfo.score =
      some (some (wasmMateScore "1")) := by
  have h := c4_score_normalization "250" "1" 250 1 (by decide) (by decide)
  obtain ⟨h1, _, h3, _, _, _, _, _, h9, _, _, _, h13, _⟩ := h
  exact ⟨by decide, by decide, h1, h3, h9 5 one_pos (by norm_num), h13⟩

/-- C1 counterexample: with a search already pending, a second getBestMove
on the ASM adapter does not fail — it silently installs a fresh pending
deferred over the first one, and the next terminal bestmove line resolves
the second search while the first search's promise is never settled. -/
theorem c1_counterexample :
    (asmGetBestMove {} {} { now := 0 }).2.currentSearch = some 0 ∧
    (asmGetBestMove {} {} (asmGetBestMove {} {} { now := 0 }).2).1 = 1 ∧
    (asmGetBestMove {} {} (asmGetBestMove {} {} { now := 0 }).2).2.currentSearch =
      some 1 ∧
    settleLookup (handleBestmove ["bestmove", "e2e4"]
        (asmGetBestMove {} {} (asmGetBestMove {} {} { now := 0 }).2).2).settled 0 =
      none ∧
    settleLookup (handleBestmove ["bestmove", "e2e4"]
        (asmGetBestMove {} {} (asmGetBestMove {} {} { now := 0 }).2).2).settled 1 =
      some (Settle.resolved (some "e2e4") none) := by decide

/-- C1 (amended): a second getBestMove while one search is pending raises
no error at all: it overwrites currentSearch with a fresh deferred, so the
terminal bestmove line resolves the second search and the first search's
promise is left unsettled (never resolved by a later bestmove). -/
theorem c1_second_search_overwrites
    (cfg : SearchCfg) (opts : SearchOpts) (parts : List String)
    (st : AdapterSt) (id : Nat)
    (hpend : st.currentSearch = some id)
    (hlt : id < st.nextId)
    (hid : settleLookup st.settled id = none)
    (hnew : settleLookup st.settled st.nextId = none) :
    (asmGetBestMove cfg opts st).1 = st.nextId ∧
    (asmGetBestMove cfg opts st).2.currentSearch = some st.nextId ∧
    st.nextId ≠ id ∧
    (asmGetBestMove cfg opts st).2.settled = st.settled ∧
    settleLookup
      (handleBestmove parts (asmGetBestMove cfg opts st).2).settled id = none ∧
    settleLookup
        (handleBestmove parts (asmGetBestMove cfg opts st).2).settled st.nextId =
      some (Settle.resolved (parts.get? 1) (parts.get? 3)) := by
  refine ⟨rfl, rfl, Ne.symm (Nat.ne_of_lt hlt), rfl, ?_, ?_⟩
  · show settleLookup (settleOnce st.settled st.nextId
      (Settle.resolved (parts.get? 1) (parts.get? 3))) id = none
    rw [settleOnce_of_unsettled _ _ _ hnew]
    rw [settleLookup_append_ne _ _ _ _ (Nat.ne_of_lt hlt)]
    exact hid
  · show settleLookup (settleOnce st.settled st.nextId
      (Settle.resolved (parts.get? 1) (parts.get? 3))) st.nextId =
      some (Settle.resolved (parts.get? 1) (parts.get? 3))
    rw [settleOnce_of_unsettled _ _ _ hnew]
    exact settleLookup_append_self _ _ _ hnew

/-- C1 witness: the amended overwrite behaviour at a concrete state. -/
theorem c1_second_search_overwrites_witness :
    settleLookup (handleBestmove ["bestmove", "d2d4"]
        (asmGetBestMove {} {} (asmGetBestMove {} {} { now := 0 }).2).2).settled 0 =
      none ∧
    settleLookup (handleBestmove ["bestmove", "d2d4"]
        (asmGetBestMove {} {} (asmGetBestMove {} {} { now := 0 }).2).2).settled 1 =
      some (Settle.resolved (some "d2d4") none) := by
  have h := c1_second_search_overwrites {} {} ["bestmove", "d2d4"]
    (asmGetBestMove {} {} { now := 0 }).2 0 rfl (by decide) rfl rfl
  exact ⟨h.2.2.2.2.1, h.2.2.2.2.2⟩

/-- C2 counterexample: a WASM-adapter search with a 1000 ms budget that
receives no bestmove is rejected as a timeout when the 6000 ms timer
fires, but no stop command is ever sent to the engine, contrary to the
claim. -/
theorem c2_counterexample :
    (wasmGetBestMove {} { time := some 1000 } { now := 0 }).2.timers =
      [(6000, 0)] ∧
    settleLookup (wasmFireTimer 6000 0
        (wasmGetBestMove {} { time := some 1000 } { now := 0 }).2).settled 0 =
      some (Settle.rejected "Search timeout") ∧
    (wasmFireTimer 6000 0
        (wasmGetBestMove {} { time := some 1000 } { now := 0 }).2).sent =
      ["go movetime 1000"] ∧
    "stop" ∉ (wasmFireTimer 6000 0
        (wasmGetBestMove {} { time := some 1000 } { now := 0 }).2).sent := by
  decide

/-- C2 (amended): for a search with time budget b the hard timeout fires at
b + 5000 ms and rejects the pending search with Search timeout, leaving
the adapter ready to accept a fresh getBestMove immediately; the ASM
adapter sends a stop command when the timer fires, while the WASM adapter
sends none. -/
theorem c2_timeout_stop_and_recovery
    (cfg : SearchCfg) (b : Nat) (o2 : SearchOpts) (st : AdapterSt)
    (hb : b ≠ 0)
    (hcur : st.currentSearch = none)
    (hnew : settleLookup st.settled st.nextId = none) :
    (wasmGetBestMove cfg { time := some b } st).2.timers =
      st.timers ++ [(st.now + b + 5000, st.nextId)] ∧
    settleLookup (wasmFireTimer (st.now + b + 5000) st.nextId
        (wasmGetBestMove cfg { time := some b } st).2).settled st.nextId =
      some (Settle.rejected "Search timeout") ∧
    (wasmFireTimer (st.now + b + 5000) st.nextId
        (wasmGetBestMove cfg { time := some b } st).2).currentSearch = none ∧
    (wasmFireTimer (st.now + b + 5000) st.nextId
        (wasmGetBestMove cfg { time := some b } st).2).sent =
      st.sent ++ [s!"go movetime {b}"] ∧
    (wasmGetBestMove cfg o2 (wasmFireTimer (st.now + b + 5000) st.nextId
        (wasmGetBestMove cfg { time := some b } st).2)).2.currentSearch =
      some (wasmGetBestMove cfg o2 (wasmFireTimer (st.now + b + 5000) st.nextId
        (wasmGetBestMove cfg { time := some b } st).2)).1 ∧
    (asmGetBestMove cfg { time := some b } st).2.timers =
      st.timers ++ [(st.now + b + 5000, st.nextId)] ∧
    settleLookup (asmFireTimer (st.now + b + 5000) st.nextId
        (asmGetBestMove cfg { time := some b } st).2).settled st.nextId =
      some (Settle.rejected "Search timeout") ∧
    (asmFireTimer (st.now + b + 5000) st.nextId
        (asmGetBestMove cfg { time := some b } st).2).sent =
      st.sent ++ [s!"go movetime {b}", "stop"] := by
  have htl : searchTimeLimit cfg { time := some b } = b := by
    simp [searchTimeLimit, jsOrN, hb]
  have htr : jsTruthyInt (((some b).map Int.ofNat)) = true := by
    show ((Int.ofNat b) != 0) = true
    simp only [bne_iff_ne, ne_eq, Int.ofNat_eq_natCast, Int.natCast_eq_zero]
    exact hb
  have hgoW : wasmGoCommand cfg { time := some b } = s!"go movetime {b}" := by
    have h1 : wasmGoCommand cfg { time := some b } =
        (if jsTruthyInt ((some b).map Int.ofNat) then
           s!"go movetime {searchTimeLimit cfg { time := some b }}"
         else s!"go depth {jsOrN none (jsOrN cfg.depth 15)}") := rfl
    rw [h1, if_pos htr, htl]
  have hgoA : asmGoCommand cfg { time := some b } = s!"go movetime {b}" := by
    have h1 : asmGoCommand cfg { time := some b } =
        (if jsTruthyInt ((some b).map Int.ofNat) then
           s!"go movetime {searchTimeLimit cfg { time := some b }}"
         else s!"go depth {jsOrN none (jsOrN cfg.depth 15)}") := rfl
    rw [h1, if_pos htr, htl]
  refine ⟨?_, ?_, rfl, ?_, rfl, ?_, ?_, ?_⟩
  · show st.timers ++ [(st.now + searchTimeLimit cfg { time := some b } + 5000,
      st.nextId)] = _
    rw [htl]
  · show settleLookup (settleOnce st.settled st.nextId
      (Settle.rejected "Search timeout")) st.nextId = _
    rw [settleOnce_of_unsettled _ _ _ hnew]
    exact settleLookup_append_self _ _ _ hnew
  · show st.sent ++ [wasmGoCommand cfg { time := some b }] = _
    rw [hgoW]
  · show st.timers ++ [(st.now +
      (if searchTimeLimit cfg { time := some b } = 0 then 10000
       else searchTimeLimit cfg { time := some b }) + 5000, st.nextId)] = _
    rw [htl, if_neg hb]
  · show settleLookup (settleOnce st.settled st.nextId
      (Settle.rejected "Search timeout")) st.nextId = _
    rw [settleOnce_of_unsettled _ _ _ hnew]
    exact settleLookup_append_self _ _ _ hnew
  · show (st.sent ++ [asmGoCommand cfg { time := some b }]) ++ ["stop"] = _
    rw [hgoA, List.append_assoc]
    rfl

/-- C2 witness: the amended timeout behaviour at a concrete 1000 ms
budget. -/
theorem c2_timeout_stop_and_recovery_witness :
    (1000 : Nat) ≠ 0 ∧
    settleLookup (wasmFireTimer 6000 0
        (wasmGetBestMove {} { time := some 1000 } { now := 0 }).2).settled 0 =
      some (Settle.rejected "Search timeout") ∧
    (asmFireTimer 6000 0
        (asmGetBestMove {} { time := some 1000 } { now := 0 }).2).sent =
      ["go movetime 1000", "stop"] := by
  have h := c2_timeout_stop_and_recovery {} 1000 {} { now := 0 }
    (by decide) rfl rfl
  refine ⟨by decide, h.2.1, ?_⟩
  have h8 := h.2.2.2.2.2.2.2
  rw [h8]
  decide

/-- C7 counterexample: with a two-engine pool where the first engine's
initialization fails, the identifier is removed from the pool list but the
failure propagates immediately out of selectAndInitEngine even though the
pool is not exhausted — one configured identifier remains. -/
theorem c7_counterexample :
    (selectAndInitEngine { selection := "single" }
        (fun id => id != "stockfish-wasm") 0
        { poolEngines := ["stockfish-wasm", "stockfish-native"] }).1 =
      Except.error "Failed to initialize engine stockfish-wasm" ∧
    (selectAndInitEngine { selection := "single" }
        (fun id => id != "stockfish-wasm") 0
        { poolEngines := ["stockfish-wasm", "stockfish-native"] }).2.poolEngines =
      ["stockfish-native"] := by
  exact ⟨rfl, by decide⟩

/-- C7 (amended): a failed initialization removes the identifier from the
in-memory pool list for the session (so it is not implicitly retried) and
does not cache it, but the failure is re-thrown: it propagates immediately
to the caller of the triggering selection step, even when other pool
members remain — it is not deferred until the pool is exhausted. -/
theorem c7_init_failure_removes_and_propagates
    (initOk : String → Bool) (id : String) (st : PoolSt) (cfg : PoolConfig)
    (r : ℚ)
    (henabled : enginesConfigEnabled id = some true)
    (hfail : initOk id = false) :
    (initializeEngine initOk id st).1 =
      Except.error s!"Failed to initialize engine {id}" ∧
    (initializeEngine initOk id st).2.poolEngines =
      st.poolEngines.filter (fun e => e ≠ id) ∧
    id ∉ (initializeEngine initOk id st).2.poolEngines ∧
    (initializeEngine initOk id st).2.enginesCache = st.enginesCache ∧
    (cfg.selection = "single" → st.poolEngines.head? = some id →
      st.enginesCache.contains id = false →
      (selectAndInitEngine cfg initOk r st).1 =
        Except.error s!"Failed to initialize engine {id}") := by
  have hinit : initializeEngine initOk id st =
      (Except.error s!"Failed to initialize engine {id}",
       { st with poolEngines := st.poolEngines.filter (fun e => e ≠ id) }) := by
    unfold initializeEngine
    rw [henabled]
    simp [hfail]
  refine ⟨by rw [hinit], by rw [hinit], ?_, by rw [hinit], ?_⟩
  · rw [hinit]
    simp
  · intro hsel hhead hcache
    unfold selectAndInitEngine
    rw [hsel]
    rw [if_neg (by decide : ¬ ("single" : String) = "random"),
        if_neg (by decide : ¬ ("single" : String) = "sequential"),
        if_neg (by decide : ¬ ("single" : String) = "weighted")]
    dsimp only
    rw [hhead]
    dsimp only
    rw [hcache]
    rw [if_neg (by decide : ¬ false = true)]
    rw [hinit]

/-- C7 witness: the amended removal-and-propagation at a concrete state. -/
theorem c7_init_failure_witness :
    enginesConfigEnabled "maia-1100" = some true ∧
    (fun id => id != "maia-1100") "maia-1100" = false ∧
    (initializeEngine (fun id => id != "maia-1100") "maia-1100"
        { poolEngines := ["maia-1100", "maia-1500"] }).1 =
      Except.error "Failed to initialize engine maia-1100" ∧
    (initializeEngine (fun id => id != "maia-1100") "maia-1100"
        { poolEngines := ["maia-1100", "maia-1500"] }).2.poolEngines =
      ["maia-1500"] := by
  have h := c7_init_failure_removes_and_propagates
    (fun id => id != "maia-1100") "maia-1100"
    { poolEngines := ["maia-1100", "maia-1500"] }
    { selection := "single" } 0 (by decide) (by decide)
  refine ⟨by decide, by decide, ?_, ?_⟩
  · have h1 := h.1
    rw [h1]
    rfl
  · have h2 := h.2.1
    rw [h2]
    decide

/-- C6: shouldSwitchEngine returns true exactly when the strategy is not
single, the switch interval is positive, and the cumulative move counter
is a positive multiple of the interval; under the single strategy it is
always false; and when it returns true, analyzePosition performs the
engine switch strictly before processing the request — the analysis is
attributed to the newly selected engine and the move counter increments
afterwards. -/
theorem c6_switch_policy (cfg : PoolConfig) (st : PoolSt)
    (initOk : String → Bool) (r : ℚ) :
    (shouldSwitchEngine cfg st = true ↔
      (cfg.selection ≠ "single" ∧ 0 < cfg.switchEvery ∧ 0 < st.moveCount ∧
       cfg.switchEvery ∣ (st.moveCount : Int))) ∧
    (cfg.selection = "single" → shouldSwitchEngine cfg st = false) ∧
    (∀ e stSw, st.currentEngine = some e → shouldSwitchEngine cfg st = true →
       selectAndInitEngine cfg initOk r st = (Except.ok (), stSw) →
       poolAnalyzePosition cfg initOk r st =
         (Except.ok stSw.currentEngineId,
          { stSw with moveCount := stSw.moveCount + 1 })) := by
  refine ⟨?_, ?_, ?_⟩
  · constructor
    · intro h
      by_cases h1 : cfg.selection = "single"
      · rw [shouldSwitchEngine, if_pos h1] at h
        exact absurd h (by simp)
      · rw [shouldSwitchEngine, if_neg h1] at h
        by_cases h2 : cfg.switchEvery ≤ 0
        · rw [if_pos h2] at h
          exact absurd h (by simp)
        · rw [if_neg h2] at h
          simp only [Bool.and_eq_true, decide_eq_true_eq, beq_iff_eq] at h
          exact ⟨h1, lt_of_not_le h2, h.1,
            Int.dvd_iff_emod_eq_zero.mpr h.2⟩
    · rintro ⟨h1, h2, h3, h4⟩
      rw [shouldSwitchEngine, if_neg h1, if_neg (not_le.mpr h2)]
      simp only [Bool.and_eq_true, decide_eq_true_eq, beq_iff_eq]
      exact ⟨h3, Int.dvd_iff_emod_eq_zero.mp h4⟩
  · intro h1
    rw [shouldSwitchEngine, if_pos h1]
  · intro e stSw hce hsw hsel
    unfold poolAnalyzePosition
    rw [hce]
    simp only [hsw, if_true, hsel]

/-- C6 witness: the switching policy at concrete configurations. -/
theorem c6_switch_policy_witness :
    shouldSwitchEngine { selection := "single" }
      { poolEngines := ["stockfish-wasm"], moveCount := 5 } = false ∧
    poolAnalyzePosition { selection := "sequential", switchEvery := 2 }
        (fun _ => true) 0
        { poolEngines := ["maia-1100", "maia-1500"], poolIndex := 1,
          moveCount := 2, enginesCache := ["maia-1100", "maia-1500"],
          currentEngineId := some "maia-1100",
          currentEngine := some "maia-1100" } =
      (Except.ok (some "maia-1500"),
       { poolEngines := ["maia-1100", "maia-1500"], poolIndex := 0,
         moveCount := 3, enginesCache := ["maia-1100", "maia-1500"],
         currentEngineId := some "maia-1500",
         currentEngine := some "maia-1500" }) := by
  constructor
  · exact (c6_switch_policy { selection := "single" }
      { poolEngines := ["stockfish-wasm"], moveCount := 5 }
      (fun _ => true) 0).2.1 rfl
  · exact (c6_switch_policy { selection := "sequential", switchEvery := 2 }
      { poolEngines := ["maia-1100", "maia-1500"], poolIndex := 1,
        moveCount := 2, enginesCache := ["maia-1100", "maia-1500"],
        currentEngineId := some "maia-1100",
        currentEngine := some "maia-1100" }
      (fun _ => true) 0).2.2 "maia-1100"
      { poolEngines := ["maia-1100", "maia-1500"], poolIndex := 0,
        moveCount := 2, enginesCache := ["maia-1100", "maia-1500"],
        currentEngineId := some "maia-1500",
        currentEngine := some "maia-1500" }
      rfl (by decide) rfl

theorem seqStep_iterate (p : List String) (i mc : Nat) (ec : List String)
    (cid ce : Option String) (h : i < p.length) (k : Nat) :
    seqStep^[k] ⟨p, i, mc, ec, cid, ce⟩ =
      ⟨p, (i + k) % p.length, mc, ec, cid, ce⟩ := by
  induction k with
  | zero => simp [Nat.mod_eq_of_lt h]
  | succ k ih =>
      rw [Function.iterate_succ_apply', ih]
      show (⟨p, ((i + k) % p.length + 1) % p.length, mc, ec, cid, ce⟩ : PoolSt) = _
      rw [Nat.mod_add_mod, Nat.add_assoc]

theorem seqRun_length (n : Nat) (st : PoolSt) : (seqRun n st).length = n := by
  induction n generalizing st with
  | zero => rfl
  | succ n ih => simp [seqRun, ih]

theorem seqRun_get? (n : Nat) (st : PoolSt) (k : Nat) (h : k < n) :
    (seqRun n st).get? k = some (seqSel (seqStep^[k] st)) := by
  induction n generalizing st k with
  | zero => omega
  | succ n ih =>
      cases k with
      | zero => rfl
      | succ k =>
          show (seqRun n (seqStep st)).get? k = _
          rw [ih (seqStep st) k (by omega), Function.iterate_succ_apply]

/-- C8: sequential selection over an unchanged pool of size N visits each
pool entry exactly once per run of N consecutive selections, in original
pool order starting at the current index (a rotation of the pool list),
and the selection sequence is periodic with period N. -/
theorem c8_sequential_round_robin (st : PoolSt)
    (h : st.poolIndex < st.poolEngines.length) :
    seqRun st.poolEngines.length st =
      (st.poolEngines.rotate st.poolIndex).map some ∧
    (seqRun st.poolEngines.length st).Perm (st.poolEngines.map some) ∧
    ∀ k, seqSel (seqStep^[k + st.poolEngines.length] st) =
      seqSel (seqStep^[k] st) := by
  obtain ⟨p, i, mc, ec, cid, ce⟩ := st
  dsimp only at h ⊢
  have hlen : 0 < p.length := lt_of_le_of_lt (Nat.zero_le _) h
  have hrun : seqRun p.length ⟨p, i, mc, ec, cid, ce⟩ = (p.rotate i).map some := by
    apply List.ext_get?
    intro k
    by_cases hk : k < p.length
    · rw [seqRun_get? p.length _ k hk, seqStep_iterate p i mc ec cid ce h k]
      show some (p.get? ((i + k) % p.length)) = _
      rw [List.get?_map, List.get?_rotate hk, Nat.add_comm k i]
      have hlt : (i + k) % p.length < p.length := Nat.mod_lt _ hlen
      rw [List.get?_eq_get hlt]
      rfl
    · rw [List.get?_eq_none.mpr, List.get?_eq_none.mpr]
      · rw [List.length_map, List.length_rotate]; omega
      · rw [seqRun_length]; omega
  refine ⟨hrun, ?_, ?_⟩
  · rw [hrun]
    exact (List.rotate_perm p i).map some
  · intro k
    rw [seqStep_iterate p i mc ec cid ce h (k + p.length),
        seqStep_iterate p i mc ec cid ce h k, ← Nat.add_assoc,
        Nat.add_mod_right]

/-- C8 witness: a concrete three-engine pool starting mid-cycle. -/
theorem c8_sequential_round_robin_witness :
    seqRun 3 ⟨["maia-1100", "maia-1500", "maia-1900"], 1, 0, [], none, none⟩ =
      (["maia-1100", "maia-1500", "maia-1900"].rotate 1).map some ∧
    seqSel
        (seqStep^[2 + 3]
          ⟨["maia-1100", "maia-1500", "maia-1900"], 1, 0, [], none, none⟩) =
      seqSel
        (seqStep^[2]
          ⟨["maia-1100", "maia-1500", "maia-1900"], 1, 0, [], none, none⟩) := by
  have h := c8_sequential_round_robin
    ⟨["maia-1100", "maia-1500", "maia-1900"], 1, 0, [], none, none⟩ (by decide)
  exact ⟨h.1, h.2.2 2⟩

theorem asmApplyInfo_good (e : Option UciInfo) (tokens : List String)
    (he : ∀ info, e = some info →
      info.multipv = some 1 ∨ jsTruthyInt info.multipv = false) :
    ∀ info, asmApplyInfo e tokens = some info →
      info.multipv = some 1 ∨ jsTruthyInt info.multipv = false := by
  intro info hinfo
  unfold asmApplyInfo at hinfo
  by_cases hc : ((parseTokensAsm tokens {}).multipv == some 1 ||
      !(jsTruthyInt (parseTokensAsm tokens {}).multipv)) = true
  · rw [if_pos hc] at hinfo
    injection hinfo with h2
    subst h2
    simp only [Bool.or_eq_true] at hc
    rcases hc with h1 | h1
    · exact Or.inl (beq_iff_eq.mp h1)
    · exact Or.inr (by simpa using h1)
  · rw [if_neg hc] at hinfo
    exact he info hinfo

theorem asmCollectStep_evaluation (st : CollectSt) (tokens : List String) :
    (asmCollectStep st tokens).evaluation = asmApplyInfo st.evaluation tokens :=
  rfl

theorem alistSet_keys_one (l : List (Int × CandidateRec)) (v : CandidateRec)
    (hl : ∀ p ∈ l, p.1 = 1) : ∀ p ∈ alistSet l 1 v, p.1 = 1 := by
  induction l with
  | nil =>
      intro p hp
      rw [alistSet] at hp
      rw [List.mem_singleton.mp hp]
  | cons q rest ih =>
      obtain ⟨k2, v2⟩ := q
      intro p hp
      rw [alistSet] at hp
      by_cases hk : k2 = 1
      · rw [if_pos (beq_iff_eq.mpr hk)] at hp
        rcases List.mem_cons.mp hp with h1 | h2
        · rw [h1]; exact hk
        · exact hl _ (List.mem_cons_of_mem _ h2)
      · rw [if_neg (by simpa using hk)] at hp
        rcases List.mem_cons.mp hp with h1 | h2
        · rw [h1]
          exact hl _ (List.mem_cons_self _ _)
        · exact ih (fun p2 hp2 => hl p2 (List.mem_cons_of_mem _ hp2)) _ h2

theorem asmCollectPv_keys (pvLines : List (Int × CandidateRec))
    (ev : Option UciInfo)
    (hkeys : ∀ p ∈ pvLines, p.1 = 1)
    (hev : ∀ info, ev = some info →
      info.multipv = some 1 ∨ jsTruthyInt info.multipv = false) :
    ∀ p ∈ asmCollectPv pvLines ev, p.1 = 1 := by
  cases ev with
  | none => exact hkeys
  | some info =>
      have hgood := hev info rfl
      simp only [asmCollectPv]
      cases hm : info.multipv with
      | none => exact hkeys
      | some k =>
          cases hp : info.pv with
          | none => exact hkeys
          | some pvl =>
              by_cases hk : (k != 0) = true
              · dsimp only
                rw [if_pos hk]
                have h1 : k = 1 := by
                  rcases hgood with h | h
                  · rw [hm] at h
                    exact Option.some.inj h
                  · rw [hm] at h
                    have h2 : (k != 0) = false := h
                    rw [h2] at hk
                    cases hk
                subst h1
                exact alistSet_keys_one pvLines _ hkeys
              · dsimp only
                rw [if_neg hk]
                exact hkeys

theorem asmCollectStep_keys (st : CollectSt) (tokens : List String)
    (hev : ∀ info, st.evaluation = some info →
      info.multipv = some 1 ∨ jsTruthyInt info.multipv = false)
    (hkeys : ∀ p ∈ st.pvLines, p.1 = 1) :
    ∀ p ∈ (asmCollectStep st tokens).pvLines, p.1 = 1 := by
  have hgood := asmApplyInfo_good st.evaluation tokens hev
  show ∀ p ∈ asmCollectPv st.pvLines (asmApplyInfo st.evaluation tokens), p.1 = 1
  exact asmCollectPv_keys st.pvLines _ hkeys hgood

theorem asmCollect_foldl_keys (infoMsgs : List (List String)) :
    ∀ st : CollectSt,
      (∀ info, st.evaluation = some info →
        info.multipv = some 1 ∨ jsTruthyInt info.multipv = false) →
      (∀ p ∈ st.pvLines, p.1 = 1) →
      ∀ p ∈ (infoMsgs.foldl asmCollectStep st).pvLines, p.1 = 1 := by
  induction infoMsgs with
  | nil => intro st h1 h2; exact h2
  | cons m rest ih =>
      intro st h1 h2
      rw [List.foldl_cons]
      refine ih (asmCollectStep st m) ?_ (asmCollectStep_keys st m h1 h2)
      rw [asmCollectStep_evaluation]
      exact asmApplyInfo_good st.evaluation m h1

theorem alistGet_ne_one (l : List (Int × CandidateRec)) (k : Int)
    (hl : ∀ p ∈ l, p.1 = 1) (hk : k ≠ 1) : alistGet l k = none := by
  have h0 : l.find? (fun p => p.1 == k) = none := by
    rw [List.find?_eq_none]
    intro x hx h
    rw [hl x hx] at h
    exact hk (beq_iff_eq.mp h).symm
  unfold alistGet
  rw [h0]

theorem filterMap_length_le_one {α : Type} (l : List Nat) (f : Nat → Option α)
    (hl : l.Nodup) (hf : ∀ j ∈ l, j ≠ 0 → f j = none) :
    (l.filterMap f).length ≤ 1 := by
  induction l with
  | nil => simp
  | cons a rest ih =>
      have hnd := List.nodup_cons.mp hl
      rw [List.filterMap_cons]
      cases hfa : f a with
      | none => exact ih hnd.2 (fun j hj => hf j (List.mem_cons_of_mem _ hj))
      | some v =>
          have ha : a = 0 := by
            by_contra hne
            rw [hf a (List.mem_cons_self _ _) hne] at hfa
            cases hfa
          have hrest : rest.filterMap f = [] := by
            rw [List.filterMap_eq_nil_iff]
            intro j hj
            have hj0 : j ≠ 0 := by
              intro h0
              rw [h0, ← ha] at hj
              exact hnd.1 hj
            exact hf j (List.mem_cons_of_mem _ hj) hj0
          rw [hrest]
          simp

theorem asmGetCandidateMoves_length_le_one (count : Nat)
    (infoMsgs : List (List String)) :
    (asmGetCandidateMoves count infoMsgs).length ≤ 1 := by
  show ((List.range count).filterMap
    (fun (j : Nat) =>
      alistGet (infoMsgs.foldl asmCollectStep {}).pvLines
        (Int.ofNat j + 1))).length ≤ 1
  apply filterMap_length_le_one _ _ (List.nodup_range count)
  intro j hj hj0
  apply alistGet_ne_one
  · apply asmCollect_foldl_keys infoMsgs {}
    · intro info h
      exact Option.noConfusion h
    · intro p hp
      exact absurd hp (List.not_mem_nil p)
  · intro he
    apply hj0
    have h2 : Int.ofNat j = 0 := by linarith
    exact Int.ofNat_eq_zero.mp h2

theorem emRankFrom_length (cs : List CandidateRec) :
    ∀ i, (emRankFrom i cs).length = cs.length := by
  induction cs with
  | nil => intro i; rfl
  | cons c rest ih =>
      intro i
      show (emRankFrom (i + 1) rest).length + 1 = rest.length + 1
      rw [ih (i + 1)]

theorem emRankFrom_ranks (cs : List CandidateRec) :
    ∀ i, (emRankFrom i cs).map RankedMove.rank = List.range' (i + 1) cs.length := by
  induction cs with
  | nil => intro i; rfl
  | cons c rest ih =>
      intro i
      show (i + 1) :: (emRankFrom (i + 1) rest).map RankedMove.rank = _
      rw [ih (i + 1), List.length_cons, List.range'_succ]

theorem nodup_of_length_le_one {α : Type} (l : List α) (h : l.length ≤ 1) :
    l.Nodup := by
  cases l with
  | nil => exact List.nodup_nil
  | cons a rest =>
      cases rest with
      | nil => exact List.nodup_singleton a
      | cons b r2 =>
          exfalso
          rw [List.length_cons, List.length_cons] at h
          omega

/-- C9: with a ready engine, getCandidateMoves succeeds and returns the
re-numbered captured variation records: a list of length at most k, ranked
1..length in strictly ascending order, containing no duplicate move
strings; fewer reported lines than requested is not a failure. -/
theorem c9_candidate_list_shape (st : EngineMgrSt) (count : Nat)
    (infoMsgs : List (List String)) (hready : emIsReady st = true) :
    emGetCandidateMoves st count infoMsgs =
      Except.ok (emRankFrom 0 (asmGetCandidateMoves count infoMsgs)) ∧
    (emRankFrom 0 (asmGetCandidateMoves count infoMsgs)).length ≤ count ∧
    (emRankFrom 0 (asmGetCandidateMoves count infoMsgs)).map RankedMove.rank =
      List.range' 1 (emRankFrom 0 (asmGetCandidateMoves count infoMsgs)).length ∧
    ((emRankFrom 0 (asmGetCandidateMoves count infoMsgs)).filterMap
      RankedMove.move).Nodup := by
  refine ⟨?_, ?_, ?_, ?_⟩
  · unfold emGetCandidateMoves
    rw [hready]
    rfl
  · rw [emRankFrom_length _ 0]
    calc (asmGetCandidateMoves count infoMsgs).length
        ≤ (List.range count).length := by
          show ((List.range count).filterMap
            (fun (j : Nat) =>
              alistGet (infoMsgs.foldl asmCollectStep {}).pvLines
                (Int.ofNat j + 1))).length ≤ (List.range count).length
          exact List.length_filterMap_le _ _
      _ = count := List.length_range count
  · rw [emRankFrom_ranks _ 0, emRankFrom_length _ 0]
  · apply nodup_of_length_le_one
    calc ((emRankFrom 0 (asmGetCandidateMoves count infoMsgs)).filterMap
            RankedMove.move).length
        ≤ (emRankFrom 0 (asmGetCandidateMoves count infoMsgs)).length :=
          List.length_filterMap_le _ _
      _ = (asmGetCandidateMoves count infoMsgs).length := emRankFrom_length _ 0
      _ ≤ 1 := asmGetCandidateMoves_length_le_one count infoMsgs

/-- C9 witness: a concrete two-line multi-variation search. -/
theorem c9_candidate_list_shape_witness :
    emGetCandidateMoves ⟨some ⟨true, none, none⟩, "stockfish", []⟩ 3
        [["multipv", "1", "pv", "e2e4", "e7e5"], ["multipv", "2", "pv", "d2d4"]] =
      Except.ok (emRankFrom 0 (asmGetCandidateMoves 3
        [["multipv", "1", "pv", "e2e4", "e7e5"], ["multipv", "2", "pv", "d2d4"]])) ∧
    (emRankFrom 0 (asmGetCandidateMoves 3
        [["multipv", "1", "pv", "e2e4", "e7e5"],
         ["multipv", "2", "pv", "d2d4"]])).length ≤ 3 := by
  have h := c9_candidate_list_shape ⟨some ⟨true, none, none⟩, "stockfish", []⟩ 3
    [["multipv", "1", "pv", "e2e4", "e7e5"], ["multipv", "2", "pv", "d2d4"]] rfl
  exact ⟨h.1, h.2.1⟩

theorem bumpMove_tcount_self (t : List (String × Nat)) (m : String) :
    tcount (bumpMove t m) m = tcount t m + 1 := by
  induction t with
  | nil => simp [bumpMove, tcount]
  | cons q rest ih =>
      obtain ⟨k, c⟩ := q
      by_cases hk : k = m
      · subst hk
        simp [bumpMove, tcount]
      · simp [bumpMove, tcount, hk, ih]

theorem bumpMove_tcount_ne (t : List (String × Nat)) (m m2 : String)
    (h : m2 ≠ m) : tcount (bumpMove t m) m2 = tcount t m2 := by
  have hmn : ¬ m = m2 := fun e => h (Eq.symm e)
  induction t with
  | nil => simp [bumpMove, tcount, hmn]
  | cons q rest ih =>
      obtain ⟨k, c⟩ := q
      simp only [bumpMove]
      by_cases hk : k = m
      · rw [if_pos (beq_iff_eq.mpr hk)]
        have hk2 : ¬ k = m2 := by rw [hk]; exact hmn
        simp [tcount, hk2]
      · rw [if_neg (by simpa using hk)]
        by_cases hk2 : k = m2
        · simp [tcount, hk2]
        · simp [tcount, hk2, ih]

theorem bumpMove_keys (t : List (String × Nat)) (m : String) :
    (bumpMove t m).map Prod.fst =
      if m ∈ t.map Prod.fst then t.map Prod.fst
      else t.map Prod.fst ++ [m] := by
  induction t with
  | nil => simp [bumpMove]
  | cons q rest ih =>
      obtain ⟨k, c⟩ := q
      by_cases hk : k = m
      · subst hk
        simp [bumpMove]
      · have hne : ¬ m = k := fun e => hk e.symm
        by_cases hmem : m ∈ rest.map Prod.fst
        · simp [bumpMove, hk, ih, hmem, hne]
        · simp [bumpMove, hk, ih, hmem, hne]

theorem tallyAux_tcount (rs : List DAResult) :
    ∀ (t : List (String × Nat)) (m : String),
      tcount (tallyAux t rs) m =
        tcount t m + (rs.filterMap (fun r => jsStrOrNull r.bestMove)).count m := by
  induction rs with
  | nil => intro t m; simp [tallyAux]
  | cons r rest ih =>
      intro t m
      cases h : jsStrOrNull r.bestMove with
      | none =>
          show tcount (tallyAux
            (match jsStrOrNull r.bestMove with
             | some m2 => bumpMove t m2
             | none => t) rest) m = _
          rw [h, List.filterMap_cons, h, ih t m]
      | some m2 =>
          show tcount (tallyAux
            (match jsStrOrNull r.bestMove with
             | some m2 => bumpMove t m2
             | none => t) rest) m = _
          rw [h, List.filterMap_cons, h, ih (bumpMove t m2) m, List.count_cons]
          by_cases hm : m2 = m
          · subst hm
            rw [bumpMove_tcount_self]
            simp
            omega
          · rw [bumpMove_tcount_ne t m2 m (fun e => hm e.symm)]
            have : (m2 == m) = false := by simpa using hm
            rw [this]
            simp

theorem tallyAux_keys (rs : List DAResult) :
    ∀ t : List (String × Nat),
      (tallyAux t rs).map Prod.fst =
        fsAux (t.map Prod.fst)
          (rs.filterMap (fun r => jsStrOrNull r.bestMove)) := by
  induction rs with
  | nil => intro t; rfl
  | cons r rest ih =>
      intro t
      cases h : jsStrOrNull r.bestMove with
      | none =>
          show (tallyAux
            (match jsStrOrNull r.bestMove with
             | some m2 => bumpMove t m2
             | none => t) rest).map Prod.fst = _
          rw [h, List.filterMap_cons, h, ih t]
      | some m2 =>
          show (tallyAux
            (match jsStrOrNull r.bestMove with
             | some m2 => bumpMove t m2
             | none => t) rest).map Prod.fst = _
          rw [h, List.filterMap_cons, h, ih (bumpMove t m2)]
          show fsAux ((bumpMove t m2).map Prod.fst) _ = _
          rw [bumpMove_keys]
          rfl

theorem fsAux_nodup (l : List String) :
    ∀ acc : List String, acc.Nodup → (fsAux acc l).Nodup := by
  induction l with
  | nil => intro acc h; exact h
  | cons m rest ih =>
      intro acc h
      show (fsAux (if m ∈ acc then acc else acc ++ [m]) rest).Nodup
      by_cases hm : m ∈ acc
      · rw [if_pos hm]
        exact ih acc h
      · rw [if_neg hm]
        refine ih _ ?_
        rw [List.nodup_append]
        exact ⟨h, List.nodup_singleton m,
          fun a ha hb => hm (by rw [← List.mem_singleton.mp hb]; exact ha)⟩

theorem fsAux_mem (l : List String) :
    ∀ (acc : List String) (x : String),
      x ∈ fsAux acc l ↔ x ∈ acc ∨ x ∈ l := by
  induction l with
  | nil => intro acc x; simp [fsAux]
  | cons m rest ih =>
      intro acc x
      show x ∈ fsAux (if m ∈ acc then acc else acc ++ [m]) rest ↔ _
      by_cases hm : m ∈ acc
      · rw [if_pos hm, ih]
        constructor
        · rintro (h | h)
          · exact Or.inl h
          · exact Or.inr (List.mem_cons_of_mem _ h)
        · rintro (h | h)
          · exact Or.inl h
          · rcases List.mem_cons.mp h with rfl | h2
            · exact Or.inl hm
            · exact Or.inr h2
      · rw [if_neg hm, ih]
        simp only [List.mem_append, List.mem_singleton, List.mem_cons]
        tauto

theorem tcount_of_mem (t : List (String × Nat))
    (hnd : (t.map Prod.fst).Nodup) (k : String) (c : Nat)
    (hmem : (k, c) ∈ t) : tcount t k = c := by
  induction t with
  | nil => cases hmem
  | cons q rest ih =>
      obtain ⟨k2, c2⟩ := q
      rw [List.map_cons, List.nodup_cons] at hnd
      rcases List.mem_cons.mp hmem with h1 | h2
      · obtain ⟨e1, e2⟩ := Prod.mk.injEq .. ▸ h1
        subst e1; subst e2
        simp [tcount]
      · have hk2 : k2 ≠ k := by
          intro e
          subst e
          exact hnd.1 (List.mem_map.mpr ⟨(k2, c), h2, rfl⟩)
        show (if k2 = k then c2 else tcount rest k) = c
        rw [if_neg hk2]
        exact ih hnd.2 h2

theorem tmax_cons (m : String) (c : Nat) (rest : List (String × Nat)) :
    tmax ((m, c) :: rest) = max c (tmax rest) := rfl

theorem consensusScan_fst (t : List (String × Nat)) :
    ∀ acc : Nat × Option String,
      (consensusScan acc t).1 = max acc.1 (tmax t) := by
  induction t with
  | nil => intro acc; simp [consensusScan, tmax]
  | cons q rest ih =>
      obtain ⟨m, c⟩ := q
      intro acc
      show (consensusScan (if c > acc.1 then (c, some m) else acc) rest).1 = _
      rw [ih, tmax_cons]
      by_cases hc : c > acc.1
      · rw [if_pos hc]
        show max c (tmax rest) = _
        omega
      · rw [if_neg hc]
        omega

theorem consensusScan_keep (t : List (String × Nat)) :
    ∀ acc : Nat × Option String, tmax t ≤ acc.1 →
      consensusScan acc t = acc := by
  induction t with
  | nil => intro acc h; rfl
  | cons q rest ih =>
      obtain ⟨m, c⟩ := q
      intro acc h
      rw [tmax_cons] at h
      show consensusScan (if c > acc.1 then (c, some m) else acc) rest = acc
      rw [if_neg (by omega)]
      exact ih acc (by omega)

theorem consensusScan_winner (t : List (String × Nat)) :
    ∀ acc : Nat × Option String, acc.1 < tmax t →
      (consensusScan acc t).2 =
        (t.find? (fun p => p.2 == tmax t)).map Prod.fst := by
  induction t with
  | nil => intro acc h; simp [tmax] at h
  | cons q rest ih =>
      obtain ⟨m, c⟩ := q
      intro acc h
      rw [tmax_cons] at h
      show (consensusScan (if c > acc.1 then (c, some m) else acc) rest).2 = _
      rw [List.find?_cons]
      by_cases hc : c > acc.1
      · rw [if_pos hc]
        by_cases hr : tmax rest ≤ c
        · have hM : tmax ((m, c) :: rest) = c := by rw [tmax_cons]; omega
          rw [consensusScan_keep rest (c, some m) hr, hM]
          have hbeq : (((m, c) : String × Nat).2 == c) = true :=
            beq_iff_eq.mpr rfl
          rw [hbeq]
          rfl
        · have hcr : c < tmax rest := by omega
          have hM : tmax ((m, c) :: rest) = tmax rest := by rw [tmax_cons]; omega
          rw [hM]
          have hbeq : (((m, c) : String × Nat).2 == tmax rest) = false := by
            simp only [beq_eq_false_iff_ne, ne_eq]
            omega
          rw [hbeq]
          exact ih (c, some m) hcr
      · rw [if_neg hc]
        have hcr : acc.1 < tmax rest := by omega
        have hM : tmax ((m, c) :: rest) = tmax rest := by rw [tmax_cons]; omega
        rw [hM]
        have hbeq : (((m, c) : String × Nat).2 == tmax rest) = false := by
          simp only [beq_eq_false_iff_ne, ne_eq]
          omega
        rw [hbeq]
        exact ih acc hcr

theorem tally_find_transfer (ms : List String) (M : Nat) :
    ∀ t : List (String × Nat), (∀ p ∈ t, p.2 = ms.count p.1) →
      (t.find? (fun p => p.2 == M)).map Prod.fst =
        (t.map Prod.fst).find? (fun k => ms.count k == M) := by
  intro t
  induction t with
  | nil => intro h; rfl
  | cons q rest ih =>
      intro h
      obtain ⟨k, c⟩ := q
      have hq : c = ms.count k := h (k, c) (List.mem_cons_self _ _)
      rw [List.map_cons, List.find?_cons, List.find?_cons]
      cases hc : (((k, c) : String × Nat).2 == M) with
      | true =>
          have hc2 : (ms.count k == M) = true := by
            rw [← hq]
            exact hc
          rw [hc2]
          rfl
      | false =>
          have hc2 : (ms.count k == M) = false := by
            rw [← hq]
            exact hc
          rw [hc2]
          exact ih (fun p hp => h p (List.mem_cons_of_mem _ hp))

theorem le_foldr_max (l : List Nat) (x : Nat) (hx : x ∈ l) :
    x ≤ l.foldr max 0 := by
  induction l with
  | nil => cases hx
  | cons a rest ih =>
      rcases List.mem_cons.mp hx with rfl | h2
      · exact le_max_left _ _
      · exact le_trans (ih h2) (le_max_right _ _)

theorem foldr_max_attained (l : List Nat) :
    l.foldr max 0 = 0 ∨ l.foldr max 0 ∈ l := by
  induction l with
  | nil => exact Or.inl rfl
  | cons a rest ih =>
      show max a (rest.foldr max 0) = 0 ∨ max a (rest.foldr max 0) ∈ a :: rest
      by_cases h : a ≤ rest.foldr max 0
      · rw [max_eq_right h]
        rcases ih with h0 | hmem
        · exact Or.inl h0
        · exact Or.inr (List.mem_cons_of_mem _ hmem)
      · rw [max_eq_left (le_of_not_le h)]
        exact Or.inr (List.mem_cons_self _ _)

/-- C5: for a nonempty list of successful results each carrying a best
move, consolidateResults computes exactly the claim's statistics: the
consensus move is the most frequent best-move string with ties broken by
first-seen order, consensus strength is that winning frequency divided by
the number of successful results, and divergence is (number of distinct
moves − 1) divided by the number of successful results. -/
theorem c5_consensus (rs : List DAResult)
    (hne : rs ≠ [])
    (hall : ∀ r ∈ rs, (jsStrOrNull r.bestMove).isSome = true) :
    (consolidateResults rs).consensus = consensusSpec (rs.filterMap (fun r => jsStrOrNull r.bestMove)) ∧
    (consensusSpec (rs.filterMap (fun r => jsStrOrNull r.bestMove))).isSome = true ∧
    (consolidateResults rs).consensusStrength =
      JSNum.num ((specMaxFreq (rs.filterMap (fun r => jsStrOrNull r.bestMove)) : ℚ) / (rs.length : ℚ)) ∧
    (consolidateResults rs).uniqueMoves = (firstSeen (rs.filterMap (fun r => jsStrOrNull r.bestMove))).length ∧
    (consolidateResults rs).divergence =
      JSNum.num ((((firstSeen (rs.filterMap (fun r => jsStrOrNull r.bestMove))).length : ℚ) - 1) / (rs.length : ℚ)) := by
  have hkeys : (tallyMoves rs).map Prod.fst = firstSeen (rs.filterMap (fun r => jsStrOrNull r.bestMove)) :=
    tallyAux_keys rs []
  have hcount : ∀ m, tcount (tallyMoves rs) m = (rs.filterMap (fun r => jsStrOrNull r.bestMove)).count m := by
    intro m
    have h1 := tallyAux_tcount rs [] m
    simpa [tcount] using h1
  have hnodup : ((tallyMoves rs).map Prod.fst).Nodup := by
    rw [hkeys]
    exact fsAux_nodup _ [] List.nodup_nil
  have hpoint : ∀ p ∈ tallyMoves rs, p.2 = (rs.filterMap (fun r => jsStrOrNull r.bestMove)).count p.1 := by
    intro p hp
    obtain ⟨k, c⟩ := p
    have h1 := tcount_of_mem (tallyMoves rs) hnodup k c hp
    rw [← h1, hcount]
  obtain ⟨m0, hm0⟩ : ∃ m0, m0 ∈ (rs.filterMap (fun r => jsStrOrNull r.bestMove)) := by
    cases rs with
    | nil => exact absurd rfl hne
    | cons r rest =>
        have h1 := hall r (List.mem_cons_self _ _)
        obtain ⟨m0, hm0⟩ := Option.isSome_iff_exists.mp h1
        exact ⟨m0, List.mem_filterMap.mpr ⟨r, List.mem_cons_self _ _, hm0⟩⟩
  have hm0fs : m0 ∈ firstSeen (rs.filterMap (fun r => jsStrOrNull r.bestMove)) :=
    (fsAux_mem _ [] m0).mpr (Or.inr hm0)
  have hM1 : 1 ≤ specMaxFreq (rs.filterMap (fun r => jsStrOrNull r.bestMove)) := by
    have hcpos : 0 < (rs.filterMap (fun r => jsStrOrNull r.bestMove)).count m0 := List.count_pos_iff.mpr hm0
    have hle : (rs.filterMap (fun r => jsStrOrNull r.bestMove)).count m0 ≤ specMaxFreq (rs.filterMap (fun r => jsStrOrNull r.bestMove)) := by
      apply le_foldr_max
      exact List.mem_map.mpr ⟨m0, hm0fs, rfl⟩
    omega
  have htmax : tmax (tallyMoves rs) = specMaxFreq (rs.filterMap (fun r => jsStrOrNull r.bestMove)) := by
    unfold tmax specMaxFreq
    have h1 : (tallyMoves rs).map Prod.snd =
        ((tallyMoves rs).map Prod.fst).map (fun k => (rs.filterMap (fun r => jsStrOrNull r.bestMove)).count k) := by
      rw [List.map_map]
      exact List.map_congr_left hpoint
    rw [h1, hkeys]
  have hn0 : (rs.length : ℚ) ≠ 0 := by
    have h1 : 0 < rs.length := List.length_pos.mpr hne
    have h2 : rs.length ≠ 0 := by omega
    exact_mod_cast h2
  have h4 : (tallyMoves rs).length = (firstSeen (rs.filterMap (fun r => jsStrOrNull r.bestMove))).length := by
    rw [← hkeys, List.length_map]
  have hconsensus : (consolidateResults rs).consensus = consensusSpec (rs.filterMap (fun r => jsStrOrNull r.bestMove)) := by
    show (consensusScan (0, none) (tallyMoves rs)).2 = _
    rw [consensusScan_winner (tallyMoves rs) (0, none) (by rw [htmax]; omega),
        tally_find_transfer (rs.filterMap (fun r => jsStrOrNull r.bestMove)) (tmax (tallyMoves rs)) _ hpoint, hkeys, htmax]
    rfl
  have hsome : (consensusSpec (rs.filterMap (fun r => jsStrOrNull r.bestMove))).isSome = true := by
    unfold consensusSpec
    rw [List.find?_isSome]
    rcases foldr_max_attained
        ((firstSeen (rs.filterMap (fun r => jsStrOrNull r.bestMove))).map (fun m => (rs.filterMap (fun r => jsStrOrNull r.bestMove)).count m)) with h0 | hmem
    · exfalso
      have h2 : specMaxFreq (rs.filterMap (fun r => jsStrOrNull r.bestMove)) = 0 := h0
      omega
    · obtain ⟨m, hmFS, hcnt⟩ := List.mem_map.mp hmem
      exact ⟨m, hmFS, beq_iff_eq.mpr hcnt⟩
  have hscan1 : (consensusScan (0, none) (tallyMoves rs)).1 =
      specMaxFreq (rs.filterMap (fun r => jsStrOrNull r.bestMove)) := by
    rw [consensusScan_fst (tallyMoves rs) (0, none), htmax]
    show max 0 _ = _
    omega
  have hstrength : (consolidateResults rs).consensusStrength =
      JSNum.num ((specMaxFreq (rs.filterMap (fun r => jsStrOrNull r.bestMove)) : ℚ) / (rs.length : ℚ)) := by
    show jsDiv ((consensusScan (0, none) (tallyMoves rs)).1 : ℚ)
      (rs.length : ℚ) = _
    rw [hscan1, jsDiv, if_neg hn0]
  have huniq : (consolidateResults rs).uniqueMoves =
      (firstSeen (rs.filterMap (fun r => jsStrOrNull r.bestMove))).length := by
    show (tallyMoves rs).length = _
    exact h4
  have hdiv : (consolidateResults rs).divergence =
      JSNum.num ((((firstSeen (rs.filterMap (fun r => jsStrOrNull r.bestMove))).length : ℚ) - 1) / (rs.length : ℚ)) := by
    show (if (tallyMoves rs).length > 1 then
        jsDiv (((tallyMoves rs).length : ℚ) - 1) (rs.length : ℚ)
      else JSNum.num 0) = _
    by_cases hD : 1 < (tallyMoves rs).length
    · rw [if_pos hD, jsDiv, if_neg hn0, h4]
    · rw [if_neg hD]
      have h6 : 1 ≤ (tallyMoves rs).length := by
        have h2 : firstSeen (rs.filterMap (fun r => jsStrOrNull r.bestMove)) ≠ [] := List.ne_nil_of_mem hm0fs
        have h3 : 0 < (firstSeen (rs.filterMap (fun r => jsStrOrNull r.bestMove))).length := List.length_pos.mpr h2
        omega
      have h5 : (tallyMoves rs).length = 1 := by omega
      rw [← h4, h5]
      norm_num
  exact ⟨hconsensus, hsome, hstrength, huniq, hdiv⟩

/-- C5 witness: the claim's three-engine example — two engines report e2e4
and one reports d2d4. -/
theorem c5_consensus_witness :
    (consolidateResults [⟨some "e2e4"⟩, ⟨some "e2e4"⟩, ⟨some "d2d4"⟩]).consensus =
      some "e2e4" ∧
    (consolidateResults [⟨some "e2e4"⟩, ⟨some "e2e4"⟩,
        ⟨some "d2d4"⟩]).consensusStrength = JSNum.num (2 / 3) ∧
    (consolidateResults [⟨some "e2e4"⟩, ⟨some "e2e4"⟩,
        ⟨some "d2d4"⟩]).divergence = JSNum.num (1 / 3) ∧
    (consolidateResults [⟨some "e2e4"⟩, ⟨some "e2e4"⟩,
        ⟨some "d2d4"⟩]).uniqueMoves = 2 := by
  have h := c5_consensus [⟨some "e2e4"⟩, ⟨some "e2e4"⟩, ⟨some "d2d4"⟩]
    (by decide) (by decide)
  obtain ⟨h1, _, h3, h4, h5⟩ := h
  have e1 : consensusSpec ([⟨some "e2e4"⟩, ⟨some "e2e4"⟩,
      ⟨some "d2d4"⟩].filterMap (fun (r : DAResult) => jsStrOrNull r.bestMove)) =
      some "e2e4" := by decide
  have e2 : specMaxFreq ([⟨some "e2e4"⟩, ⟨some "e2e4"⟩,
      ⟨some "d2d4"⟩].filterMap (fun (r : DAResult) => jsStrOrNull r.bestMove)) =
      2 := by decide
  have e3 : (firstSeen ([⟨some "e2e4"⟩, ⟨some "e2e4"⟩,
      ⟨some "d2d4"⟩].filterMap
        (fun (r : DAResult) => jsStrOrNull r.bestMove))).length = 2 := by decide
  refine ⟨?_, ?_, ?_, ?_⟩
  · rw [h1, e1]
  · rw [h3, e2]
    norm_num
  · rw [h5, e3]
    norm_num
  · rw [h4, e3]

end ChessBot

